import Mathlib

/-!
# Verification of the alligator crate (src/src/lib.rs)

A shallow embedding of the crate's three components and proofs of the
specification's claims about them.

* `MainWaker` — the wake/wait handshake (`Mutex<bool>` + `Condvar`).
  The mutex-protected boolean `locker` starts `true` ("still waiting");
  `release` stores `false` and notifies; `wait` locks, checks the flag
  once and, if the flag is `true`, suspends on the condition variable
  once (an `if`, not a `while`: there is no re-check after the wakeup).
  Condition-variable semantics are modelled by an explicit wake event:
  a suspended thread resumes on the first event delivered to it, which
  is either a real `notify` (sent by `release`) or a `spurious` wakeup.
* `Poller` — drives one future: `poll_once` (one non-blocking poll) and
  `poll_to_completion` (poll; if `Pending`, `waker.wait()`, retry).
* `FuturePair` / `Later` — the memoizing cell: `Fut` (still driving),
  `Val` (resolved) and the transient `None` placeholder; the public
  accessors `get`, `deref`/`deref_mut`, `Display::fmt` and the
  consuming `into_inner`.

A future is modelled by the number of polls it returns `Pending` before
returning `Ready` with its value; `panic!` branches are modelled by
`Option.none`; executions of the driver are instrumented with traces of
poll and block events so that claims about when the code polls and when
it blocks can be stated.
-/

/-- The reason a thread suspended on the condition variable resumed:
a real signal sent by `release` via `notify_one`, or a spurious wakeup. -/
inductive WakeEvent where
  | spurious : WakeEvent
  | notify : WakeEvent
deriving DecidableEq, Repr

/-- The state of `MainWaker`: the boolean inside the `Mutex` (the
condition variable carries no state of its own). `true` means no
`release` has happened yet. -/
structure MainWakerState where
  locker : Bool
deriving DecidableEq, Repr

namespace MainWaker

/-- Rust `MainWaker::new`: the flag starts `true`. -/
def new : MainWakerState := ⟨true⟩

/-- Rust `MainWaker::release`: store `false` in the mutex and `notify_one`.
The notification itself is modelled as the `WakeEvent.notify` event a
suspended `wait` receives. -/
def release (_s : MainWakerState) : MainWakerState := ⟨false⟩

/-- The observable outcome of one `wait` call: whether the thread
suspended on the condition variable, and the event that resumed it
(`none` when it returned without suspending). -/
structure WaitOutcome where
  suspended : Bool
  wokenBy : Option WakeEvent
deriving DecidableEq, Repr

/-- Rust `MainWaker::wait`: lock the mutex; if the flag is `true`, suspend on
the condition variable once — `if *flag_lock { self.cvar.wait(flag_lock) }`
— and return as soon as the first wake event arrives, with no re-check of
the flag. `firstWake` is the first event delivered while suspended
(`none` when no event ever arrives: the call never returns, and the
result is `Option.none`). -/
def wait (s : MainWakerState) (firstWake : Option WakeEvent) :
    Option WaitOutcome :=
  if s.locker then
    match firstWake with
    | some e => some ⟨true, some e⟩
    | none => none
  else
    some ⟨false, none⟩

/-- The operations a `MainWaker` is subjected to over its lifetime.
`wait` carries the first wake event delivered to it if it suspends. -/
inductive WakerOp where
  | release : WakerOp
  | wait : Option WakeEvent → WakerOp

/-- Effect of one operation on the flag: `release` stores `false`;
`wait` only reads the flag, it never writes it. -/
def step (s : MainWakerState) : WakerOp → MainWakerState
  | .release => MainWaker.release s
  | .wait _ => s

/-- Run a sequence of operations on the waker. -/
def run (s : MainWakerState) : List WakerOp → MainWakerState
  | [] => s
  | op :: ops => run (step s op) ops

end MainWaker

/-- Rust `Poll`, the result of one poll of a future (`std::task::Poll`). -/
inductive Poll (O : Type) where
  | Ready : O → Poll O
  | Pending : Poll O
deriving DecidableEq, Repr

/-- A future, modelled by its poll behaviour: it returns `Poll.Pending`
for its first `pendingPolls` polls and `Poll.Ready value` afterwards. -/
structure FutureM (O : Type) where
  pendingPolls : Nat
  value : O
deriving DecidableEq, Repr

/-- One poll of the future: the future's remaining state and the result. -/
def FutureM.poll {O : Type} : FutureM O → FutureM O × Poll O
  | ⟨0, v⟩ => (⟨0, v⟩, .Ready v)
  | ⟨n + 1, v⟩ => (⟨n, v⟩, .Pending)

/-- Events recorded while the driver runs: a poll that returned
`Pending`, a poll that returned `Ready`, and a call to the blocking
`waker.wait()`. -/
inductive Ev where
  | pollPending : Ev
  | pollReady : Ev
  | block : Ev
deriving DecidableEq, Repr

/-- Rust `Poller<T,O>`: the future together with its `Arc<MainWaker>`. -/
structure Poller (O : Type) where
  future : FutureM O
  waker : MainWakerState
deriving DecidableEq, Repr

/-- Rust `FuturePair<T,O>`: the content of the cell inside `Later` — either a
still-driving `Poller`, the resolved output value, or the `None`
placeholder (the `Default`, materialized by `Cell::take`). -/
inductive FuturePair (O : Type) where
  | Fut : Poller O → FuturePair O
  | Val : O → FuturePair O
  | None : FuturePair O
deriving DecidableEq, Repr

namespace Poller

/-- Rust `Poller::new`: pair the future with a fresh `MainWaker`. -/
def new {O : Type} (future : FutureM O) : Poller O :=
  ⟨future, MainWaker.new⟩

/-- Rust `Poller::poll_once`: poll the future exactly once; `Ready(val)`
becomes `FuturePair::Val(val)`, `Pending` keeps the (mutated) poller in
`FuturePair::Fut`. The returned trace records the single poll. -/
def poll_once {O : Type} (p : Poller O) : FuturePair O × List Ev :=
  match p.future.poll with
  | (_, .Ready val) => (.Val val, [.pollReady])
  | (f2, .Pending) => (.Fut ⟨f2, p.waker⟩, [.pollPending])

/-- Rust `Poller::poll_to_completion`: loop — poll the future; on
`Ready(val)` break with the value; on `Pending` call `waker.wait()`
(recorded as `Ev.block`) and retry. -/
def poll_to_completion {O : Type} (p : Poller O) : O × List Ev :=
  match h : p.future.poll with
  | (_, .Ready val) => (val, [.pollReady])
  | (f2, .Pending) =>
      let r := poll_to_completion ⟨f2, p.waker⟩
      (r.1, .pollPending :: .block :: r.2)
termination_by p.future.pendingPolls
decreasing_by
  rcases p with ⟨⟨n, v⟩, w⟩
  cases n with
  | zero => simp [FutureM.poll] at h
  | succ m =>
      simp only [FutureM.poll, Prod.mk.injEq] at h
      obtain ⟨h1, -⟩ := h
      subst h1
      simp

end Poller

namespace FuturePair

/-- Rust `FuturePair::default`: the `None` placeholder, materialized by
`Cell::take` during in-place replacement. -/
def default {O : Type} : FuturePair O := FuturePair.None

/-! The `panic!("Report a bug if you get this panic")` branches are
modelled by `Option.none`; a `some` result is a normal return. -/

/-- Rust `FuturePair::poll_into_val`: if `self` is a `Fut`, poll the future
to completion and become a `Val`; any other variant panics. -/
def poll_into_val {O : Type} : FuturePair O → Option (FuturePair O × List Ev)
  | .Fut poller =>
      let r := poller.poll_to_completion
      some (.Val r.1, r.2)
  | _ => Option.none

/-- Rank of a cell state: used only to justify the (one-deep) recursion
of `get_ref_from_cell`, whose `Fut` branch always recurses on a `Val`. -/
def rank {O : Type} : FuturePair O → Nat
  | .Fut _ => 1
  | _ => 0

/-- Rust `FuturePair::get_ref_from_cell`: read the cell; a `Val` yields (a
reference to) the value; a `Fut` is replaced by
`cell.set(cell.take().poll_into_val())` and the function recurses on
the now-resolved cell; `None` panics. The result is the value read, the
cell's content when the call returns, and the trace of driver events. -/
def get_ref_from_cell {O : Type} (s : FuturePair O) :
    Option (O × FuturePair O × List Ev) :=
  match s with
  | .Val v => some (v, .Val v, [])
  | .Fut poller =>
      match h : (FuturePair.Fut poller).poll_into_val with
      | some (s2, tr) =>
          match get_ref_from_cell s2 with
          | some (v, s3, tr2) => some (v, s3, tr ++ tr2)
          | Option.none => Option.none
      | Option.none => Option.none
  | .None => Option.none
termination_by s.rank
decreasing_by
  simp only [poll_into_val, Option.some.injEq, Prod.mk.injEq] at h
  rw [← h.1]
  exact Nat.zero_lt_one

/-- Rust `FuturePair::into`: convert into the output value; a `Fut` is
polled to completion, `None` panics. -/
def into {O : Type} : FuturePair O → Option (O × List Ev)
  | .Val v => some (v, [])
  | .Fut f => some f.poll_to_completion
  | .None => Option.none

/-- Rust `FuturePair::clone_in_cell` (requires `O: Clone`; `clone` is the
identity on the modelled value): `cell.take()` the content, obtain the
value (polling a `Fut` to completion, panicking on `None`), store
`Val(val.clone())` back in the cell and return `Val(val)`. The result
is the returned pair, the cell's new content, and the trace. -/
def clone_in_cell {O : Type} : FuturePair O →
    Option (FuturePair O × FuturePair O × List Ev)
  | .Val val => some (.Val val, .Val val, [])
  | .Fut fut =>
      let r := fut.poll_to_completion
      some (.Val r.1, .Val r.1, r.2)
  | .None => Option.none

end FuturePair

/-- Rust `Later<T,O>`: the caller-facing wrapper; its single field is the
content of the `Cell<FuturePair<T,O>>`. -/
structure Later (O : Type) where
  fut_pair : FuturePair O
deriving DecidableEq, Repr

namespace Later

/-- Rust `Later::new`: wrap the future in a `Poller` and immediately
`poll_once`, storing the result in the cell. -/
def new {O : Type} (future : FutureM O) : Later O × List Ev :=
  let r := (Poller.new future).poll_once
  (⟨r.1⟩, r.2)

/-- Rust `Later::into_inner`: consume the wrapper and convert the cell's
content into the output value. -/
def into_inner {O : Type} (l : Later O) : Option (O × List Ev) :=
  l.fut_pair.into

/-- Rust `Later::get` (requires `O: Clone`): clone the value in the cell and
convert the returned `FuturePair` into the output value. -/
def get {O : Type} (l : Later O) : Option (O × Later O × List Ev) :=
  match l.fut_pair.clone_in_cell with
  | some (ret, cell2, tr) =>
      match ret.into with
      | some (v, tr2) => some (v, ⟨cell2⟩, tr ++ tr2)
      | Option.none => Option.none
  | Option.none => Option.none

/-- Rust `<Later as Deref>::deref` (and `deref_mut`, which has the same
body): `FuturePair::get_ref_from_cell(&self.fut_pair)`. -/
def deref {O : Type} (l : Later O) : Option (O × Later O × List Ev) :=
  match l.fut_pair.get_ref_from_cell with
  | some (v, cell2, tr) => some (v, ⟨cell2⟩, tr)
  | Option.none => Option.none

/-- The public resolving accessors of `Later`: `get`, `deref` /
`deref_mut`, and `Display::fmt` (whose body is `self.deref().fmt(f)`,
so formatting resolves exactly as `deref` does). -/
inductive Acc where
  | get : Acc
  | deref : Acc
  | display : Acc
deriving DecidableEq, Repr

/-- Apply one public accessor to the wrapper. -/
def applyAcc {O : Type} (l : Later O) : Acc → Option (O × Later O × List Ev)
  | .get => l.get
  | .deref => l.deref
  | .display => l.deref

/-- Run a sequence of public accessors, collecting each call's returned
value and trace, and the final wrapper state. -/
def runAccs {O : Type} (l : Later O) :
    List Acc → Option (List (O × List Ev) × Later O)
  | [] => some ([], l)
  | a :: rest =>
      match l.applyAcc a with
      | some (v, l2, tr) =>
          match l2.runAccs rest with
          | some (rs, l3) => some ((v, tr) :: rs, l3)
          | Option.none => Option.none
      | Option.none => Option.none

end Later

/-- Events of the flag-aware run of the driver loop: a poll that
returned `Pending` or `Ready`, a `waker.wait()` call that suspended on
the condition variable and was resumed by the recorded wake event, and
a `waker.wait()` call that found the flag already cleared and returned
without suspending. -/
inductive EvC where
  | pollPending : EvC
  | pollReady : EvC
  | waitSuspended : WakeEvent → EvC
  | waitImmediate : EvC
deriving DecidableEq, Repr

namespace Poller

/-- Flag-aware run of the `poll_to_completion` loop: the same loop as
`Poller.poll_to_completion`, with each `waker.wait()` call given the
semantics of `MainWaker.wait` (suspend only while the flag is set;
resume on the first wake event, spurious or not, with no re-check).
`sched` supplies, per `wait` call, the first wake event delivered while
that call is suspended (`Option.none`: never woken, the loop hangs and
the result is `Option.none`). The mutex flag is cleared exactly when a
suspended `wait` is resumed by the `notify` sent by `release`. -/
def poll_to_completion_sync {O : Type} (p : Poller O)
    (sched : List (Option WakeEvent)) : Option (O × List EvC) :=
  match h : p.future.poll with
  | (_, .Ready val) => some (val, [.pollReady])
  | (f2, .Pending) =>
      match MainWaker.wait p.waker (sched.headD Option.none) with
      | some ⟨false, _⟩ =>
          (poll_to_completion_sync ⟨f2, p.waker⟩ sched.tail).map
            (fun r => (r.1, .pollPending :: .waitImmediate :: r.2))
      | some ⟨true, some e⟩ =>
          let w2 : MainWakerState :=
            match e with
            | .notify => MainWaker.release p.waker
            | .spurious => p.waker
          (poll_to_completion_sync ⟨f2, w2⟩ sched.tail).map
            (fun r => (r.1, .pollPending :: .waitSuspended e :: r.2))
      | some ⟨true, Option.none⟩ => Option.none
      | Option.none => Option.none
termination_by p.future.pendingPolls
decreasing_by
  all_goals
    rcases p with ⟨⟨n, v⟩, w⟩
    cases n with
    | zero => simp [FutureM.poll] at h
    | succ m =>
        simp only [FutureM.poll, Prod.mk.injEq] at h
        obtain ⟨h1, -⟩ := h
        subst h1
        simp

end Poller

/-- The loop trace the specification describes for
`drive_to_completion`: for a future that reports `Pending` `n` times,
`n` rounds of a `Pending` check each followed by one call to the
Synchronizer's block, then the final `Ready` check. -/
def specLoopTrace : Nat → List Ev
  | 0 => [.pollReady]
  | n + 1 => .pollPending :: .block :: specLoopTrace n

/-- The cell contents reachable through the public interface of
`Later`: the cell of a freshly constructed wrapper, and the cell left
behind by any public accessor applied to a reachable cell. -/
inductive ReachableCell {O : Type} : FuturePair O → Prop where
  | new (f : FutureM O) : ReachableCell ((Later.new f).1.fut_pair)
  | step (s : FuturePair O) (a : Later.Acc) (v : O) (l2 : Later O)
      (tr : List Ev) : ReachableCell s →
      (Later.mk s).applyAcc a = some (v, l2, tr) → ReachableCell l2.fut_pair

/-! ## Helper lemmas -/

/-- Closed form of the driver loop: for a future with `n` remaining
`Pending` polls, `poll_to_completion` returns the future's value with
the alternating poll/block trace described by the specification. -/
theorem poll_to_completion_eq {O : Type} (n : Nat) (v : O)
    (w : MainWakerState) :
    Poller.poll_to_completion ⟨⟨n, v⟩, w⟩ = (v, specLoopTrace n) := by
  induction n with
  | zero => simp [Poller.poll_to_completion, FutureM.poll, specLoopTrace]
  | succ m ih =>
      simp [Poller.poll_to_completion, FutureM.poll, specLoopTrace, ih]

/-- In the specified loop trace, every `Pending` poll is immediately
followed by a block call. -/
theorem specLoopTrace_chain (n : Nat) :
    List.Chain' (fun x y => x = Ev.pollPending → y = Ev.block)
      (specLoopTrace n) := by
  induction n with
  | zero => simp [specLoopTrace]
  | succ m ih =>
      rw [specLoopTrace]
      refine List.chain'_cons.mpr ⟨fun _ => rfl, ?_⟩
      refine List.chain'_cons'.mpr ⟨?_, ih⟩
      intro y _ hx
      exact absurd hx (by simp)

/-- Every accessor applied to a resolved cell returns the stored value,
leaves the cell unchanged, and records no driver event. -/
theorem applyAcc_val {O : Type} (v : O) (a : Later.Acc) :
    (Later.mk (FuturePair.Val v)).applyAcc a
      = some (v, ⟨FuturePair.Val v⟩, []) := by
  cases a <;>
    simp [Later.applyAcc, Later.get, Later.deref, FuturePair.clone_in_cell,
      FuturePair.into, FuturePair.get_ref_from_cell]

/-- Every accessor applied to a still-driving cell polls the future to
completion, returns its value and leaves the resolved value in the
cell. -/
theorem applyAcc_fut {O : Type} (p : Poller O) (a : Later.Acc) :
    ∃ tr, (Later.mk (FuturePair.Fut p)).applyAcc a
      = some (p.poll_to_completion.1,
          ⟨FuturePair.Val p.poll_to_completion.1⟩, tr) := by
  cases a <;>
    exact ⟨p.poll_to_completion.2, by
      simp [Later.applyAcc, Later.get, Later.deref, FuturePair.clone_in_cell,
        FuturePair.into, FuturePair.get_ref_from_cell,
        FuturePair.poll_into_val]⟩

/-- Every accessor applied to a freshly constructed wrapper returns the
wrapped future's value and leaves the cell resolved with that value. -/
theorem applyAcc_new {O : Type} (f : FutureM O) (a : Later.Acc) :
    ∃ tr, ((Later.new f).1).applyAcc a
      = some (f.value, ⟨FuturePair.Val f.value⟩, tr) := by
  rcases f with ⟨n, v⟩
  cases n with
  | zero =>
      refine ⟨[], ?_⟩
      have h0 : (Later.new (⟨0, v⟩ : FutureM O)).1 = ⟨FuturePair.Val v⟩ := by
        simp [Later.new, Poller.new, Poller.poll_once, FutureM.poll]
      rw [h0]
      exact applyAcc_val v a
  | succ m =>
      have h0 : (Later.new (⟨m + 1, v⟩ : FutureM O)).1
          = ⟨FuturePair.Fut ⟨⟨m, v⟩, MainWaker.new⟩⟩ := by
        simp [Later.new, Poller.new, Poller.poll_once, FutureM.poll]
      rw [h0]
      obtain ⟨tr, htr⟩ := applyAcc_fut (⟨⟨m, v⟩, MainWaker.new⟩ : Poller O) a
      rw [poll_to_completion_eq] at htr
      exact ⟨tr, htr⟩

/-- After any successful accessor, the cell holds exactly the value the
accessor returned. -/
theorem applyAcc_resolves {O : Type} (s : FuturePair O) (a : Later.Acc)
    (v : O) (l2 : Later O) (tr : List Ev)
    (h : (Later.mk s).applyAcc a = some (v, l2, tr)) :
    l2.fut_pair = FuturePair.Val v := by
  cases s with
  | Val v0 =>
      rw [applyAcc_val] at h
      simp only [Option.some.injEq, Prod.mk.injEq] at h
      rw [← h.2.1, ← h.1]
  | Fut p =>
      obtain ⟨tr0, h0⟩ := applyAcc_fut p a
      rw [h0] at h
      simp only [Option.some.injEq, Prod.mk.injEq] at h
      rw [← h.2.1, ← h.1]
  | None =>
      cases a <;>
        simp [Later.applyAcc, Later.get, Later.deref,
          FuturePair.clone_in_cell, FuturePair.get_ref_from_cell] at h

/-- Accessors on the `None` placeholder hit the panic branch. -/
theorem applyAcc_none {O : Type} (a : Later.Acc) :
    (Later.mk (FuturePair.None : FuturePair O)).applyAcc a = Option.none := by
  cases a <;>
    simp [Later.applyAcc, Later.get, Later.deref, FuturePair.clone_in_cell,
      FuturePair.get_ref_from_cell]

/-- Running any accessor sequence on a resolved cell returns the stored
value on every call with an event-free trace and leaves the cell
unchanged. -/
theorem runAccs_val {O : Type} (v : O) (accs : List Later.Acc) :
    (Later.mk (FuturePair.Val v)).runAccs accs
      = some (accs.map (fun _ => (v, ([] : List Ev))),
          ⟨FuturePair.Val v⟩) := by
  induction accs with
  | nil => simp [Later.runAccs]
  | cons a rest ih => simp [Later.runAccs, applyAcc_val, ih]

/-- Once the flag is cleared, no operation on the waker ever sets it
back. -/
theorem run_preserves_cleared (ops : List MainWaker.WakerOp)
    (s : MainWakerState) (h : s.locker = false) :
    (MainWaker.run s ops).locker = false := by
  induction ops generalizing s with
  | nil => exact h
  | cons op rest ih =>
      cases op with
      | release => exact ih _ rfl
      | wait e => exact ih _ h

/-- Every reachable cell content is a `Fut` or a `Val` — the `None`
placeholder is never left in the cell. -/
theorem reachableCell_shape {O : Type} (s : FuturePair O)
    (h : ReachableCell s) :
    (∃ v, s = FuturePair.Val v) ∨ (∃ p, s = FuturePair.Fut p) := by
  induction h with
  | new f =>
      rcases f with ⟨n, v⟩
      cases n with
      | zero =>
          left
          exact ⟨v, by simp [Later.new, Poller.new, Poller.poll_once,
            FutureM.poll]⟩
      | succ m =>
          right
          exact ⟨⟨⟨m, v⟩, MainWaker.new⟩, by simp [Later.new, Poller.new,
            Poller.poll_once, FutureM.poll]⟩
  | step s a v l2 tr hr hap ih =>
      left
      exact ⟨v, applyAcc_resolves s a v l2 tr hap⟩



/-! ## Claims -/

/-- C1, counterexample: the claim that `MainWaker::wait` re-checks the
`notified` flag after a wakeup and never returns before the first real
signal is false of the code. `wait` uses `if`, not `while`: a call that
starts before `release` (flag still `true`) and is woken spuriously
returns at once, with `release` never having been called. -/
theorem C1_counterexample :
    ¬ (∀ (s : MainWakerState) (e : Option WakeEvent)
        (out : MainWaker.WaitOutcome),
        MainWaker.wait s e = some out → s.locker = true →
        e = some WakeEvent.notify) := by
  intro hclaim
  have h := hclaim ⟨true⟩ (some WakeEvent.spurious)
    ⟨true, some WakeEvent.spurious⟩ rfl rfl
  simp at h

/-- C1, amended: `wait` checks the flag once; when the flag is set it
suspends once on the condition variable and returns on the first wake
event of either kind, with no re-check and no re-suspension — so a
spurious wakeup makes `wait` return even though `release` has not
occurred (tolerated by the caller, which re-polls); when the flag is
already cleared `wait` returns without suspending. -/
theorem C1_amended_wait_behaviour :
    (∀ (s : MainWakerState) (e : WakeEvent), s.locker = true →
      MainWaker.wait s (some e) = some ⟨true, some e⟩) ∧
    (∀ (s : MainWakerState) (e : Option WakeEvent), s.locker = false →
      MainWaker.wait s e = some ⟨false, Option.none⟩) := by
  constructor
  · intro s e h
    simp [MainWaker.wait, h]
  · intro s e h
    simp [MainWaker.wait, h]

/-- Witness for the amended C1 at concrete inputs. -/
theorem C1_amended_wait_behaviour_witness :
    MainWaker.wait ⟨true⟩ (some WakeEvent.spurious)
      = some ⟨true, some WakeEvent.spurious⟩ ∧
    MainWaker.wait ⟨false⟩ (some WakeEvent.notify)
      = some ⟨false, Option.none⟩ :=
  ⟨C1_amended_wait_behaviour.1 ⟨true⟩ WakeEvent.spurious rfl,
   C1_amended_wait_behaviour.2 ⟨false⟩ (some WakeEvent.notify) rfl⟩

/-- C2: a signal delivered before `wait` is ever called is not lost:
when `release` completes before `wait` is called, `wait` observes the
cleared flag immediately and returns without suspending the calling
thread, whatever wake events are later delivered. -/
theorem C2_early_release_not_lost (s : MainWakerState)
    (e : Option WakeEvent) :
    MainWaker.wait (MainWaker.release s) e = some ⟨false, Option.none⟩ := by
  simp [MainWaker.wait, MainWaker.release]

/-- C3: resolution is idempotent: starting from `Later::new(f)`, any
nonempty sequence of resolving accessors (`get`, `deref`/`deref_mut`,
`Display` formatting) succeeds; every one of the N ≥ 1 calls returns
the identical output value `f.value`; only the first call's trace may
contain polls or block calls; and every subsequent call returns the
cached value with an empty trace — no polling, no blocking — leaving
the cell resolved. -/
theorem C3_resolution_idempotent {O : Type} (f : FutureM O)
    (a : Later.Acc) (rest : List Later.Acc) :
    ∃ tr, (Later.new f).1.runAccs (a :: rest)
      = some ((f.value, tr)
            :: rest.map (fun _ => (f.value, ([] : List Ev))),
          ⟨FuturePair.Val f.value⟩) := by
  obtain ⟨tr, h⟩ := applyAcc_new f a
  exact ⟨tr, by simp [Later.runAccs, h, runAccs_val]⟩

/-- C4: construction performs exactly one non-blocking drive attempt:
`Later::new(f)` polls `f` exactly once, never calls the Synchronizer's
blocking `wait`, and leaves the cell `Val(v)` when that poll returned
`Ready(v)` and `Fut` (with one `Pending` poll consumed and a fresh
waker) when it returned `Pending`. -/
theorem C4_new_drives_once {O : Type} (f : FutureM O) :
    ((Later.new f).2.count Ev.pollPending
      + (Later.new f).2.count Ev.pollReady = 1) ∧
    Ev.block ∉ (Later.new f).2 ∧
    (Later.new f).1.fut_pair
      = (if f.pendingPolls = 0 then FuturePair.Val f.value
         else FuturePair.Fut ⟨⟨f.pendingPolls - 1, f.value⟩,
           MainWaker.new⟩) := by
  rcases f with ⟨n, v⟩
  cases n <;>
    simp [Later.new, Poller.new, Poller.poll_once, FutureM.poll]

/-- C5, counterexample: the claim that between any two consecutive
`Pending` polls the calling thread suspends in block until the next
wake — never re-polling faster than the wake cadence — is false of the
code: in the flag-aware run of the loop, a spurious wakeup resumes the
suspended `wait` before any `release`, and the loop immediately
re-polls. At the concrete input (two `Pending` polls, first wait woken
spuriously) the wait between the two `Pending` polls is not a
suspension ended by the real signal. -/
theorem C5_counterexample :
    ¬ (∀ (p : Poller Nat) (sched : List (Option WakeEvent))
        (r : Nat × List EvC),
        Poller.poll_to_completion_sync p sched = some r →
        ∀ i : Nat, r.2.get? i = some EvC.pollPending →
          r.2.get? (i + 2) = some EvC.pollPending →
          r.2.get? (i + 1) = some (EvC.waitSuspended WakeEvent.notify)) := by
  intro hclaim
  have h0 : Poller.poll_to_completion_sync (⟨⟨2, 0⟩, ⟨true⟩⟩ : Poller Nat)
      [some WakeEvent.spurious, some WakeEvent.notify]
      = some (0, [EvC.pollPending, EvC.waitSuspended WakeEvent.spurious,
          EvC.pollPending, EvC.waitSuspended WakeEvent.notify,
          EvC.pollReady]) := by
    simp [Poller.poll_to_completion_sync, FutureM.poll, MainWaker.wait]
  have h := hclaim ⟨⟨2, 0⟩, ⟨true⟩⟩
    [some WakeEvent.spurious, some WakeEvent.notify] _ h0 0 rfl rfl
  simp at h

/-- C5, amended: `poll_to_completion` loops exactly as specified —
check the operation; if `Ready` return the value; if `Pending` call the
Synchronizer's block then retry — and it never re-polls without an
intervening block call: its trace is the alternating poll/block shape,
in which every `Pending` poll is immediately followed by a block call.
(The block call itself, per the amended C1, may return on a spurious
wakeup or — once the flag is cleared — without suspending.) -/
theorem C5_amended_loop_shape {O : Type} (p : Poller O) :
    p.poll_to_completion
      = (p.future.value, specLoopTrace p.future.pendingPolls) ∧
    List.Chain' (fun x y => x = Ev.pollPending → y = Ev.block)
      p.poll_to_completion.2 := by
  rcases p with ⟨⟨n, v⟩, w⟩
  refine ⟨poll_to_completion_eq n v w, ?_⟩
  rw [poll_to_completion_eq n v w]
  exact specLoopTrace_chain n

/-- C6: `get` returns a duplicate of the stored value and leaves the
container still holding the resolved value: the first `get` on a fresh
wrapper returns the future's value and stores it; a `get` on a
resolved container returns the stored value, leaves it in place, and
records no poll or block event — so two successive `get` calls return
two equal values and the future is never re-polled after the first
resolution. -/
theorem C6_get_duplicates {O : Type} (f : FutureM O) :
    (∃ tr, (Later.new f).1.get
      = some (f.value, ⟨FuturePair.Val f.value⟩, tr)) ∧
    (∀ v : O, (Later.mk (FuturePair.Val v)).get
      = some (v, ⟨FuturePair.Val v⟩, ([] : List Ev))) := by
  constructor
  · obtain ⟨tr, h⟩ := applyAcc_new f Later.Acc.get
    exact ⟨tr, h⟩
  · intro v
    exact applyAcc_val v Later.Acc.get

/-- C7: extraction equals read: `into_inner` consumes the container —
polling to completion when the cell is still a `Fut` — and returns the
same final value that `get` or `deref` yields on an equivalent
container constructed from the same future. -/
theorem C7_into_inner_eq_read {O : Type} (f : FutureM O) :
    ((Later.new f).1.into_inner).map Prod.fst = some f.value ∧
    ((Later.new f).1.get).map (fun r => r.1) = some f.value ∧
    ((Later.new f).1.deref).map (fun r => r.1) = some f.value ∧
    (∀ p : Poller O, (Later.mk (FuturePair.Fut p)).into_inner
      = some p.poll_to_completion) := by
  refine ⟨?_, ?_, ?_, fun p => rfl⟩
  · rcases f with ⟨n, v⟩
    cases n with
    | zero =>
        simp [Later.new, Poller.new, Poller.poll_once, FutureM.poll,
          Later.into_inner, FuturePair.into]
    | succ m =>
        simp [Later.new, Poller.new, Poller.poll_once, FutureM.poll,
          Later.into_inner, FuturePair.into, poll_to_completion_eq]
  · obtain ⟨tr, h⟩ := applyAcc_new f Later.Acc.get
    simp only [Later.applyAcc] at h
    rw [h]
    rfl
  · obtain ⟨tr, h⟩ := applyAcc_new f Later.Acc.deref
    simp only [Later.applyAcc] at h
    rw [h]
    rfl

/-- C8: resolution-state invariant: after any public accessor (`get`,
`deref`/`deref_mut`, `Display` formatting) returns, the cell is
resolved (`Val`); and the transition is never reversed: an accessor on
an already-resolved cell leaves the cell, the returned value and the
trace unchanged — the cell only ever moves from `Fut` to `Val`. -/
theorem C8_cell_resolved_invariant {O : Type} (l : Later O)
    (a : Later.Acc) (v2 : O) (l2 : Later O) (tr : List Ev)
    (h : l.applyAcc a = some (v2, l2, tr)) :
    l2.fut_pair = FuturePair.Val v2 ∧
    (∀ v, l.fut_pair = FuturePair.Val v → l2 = l ∧ v2 = v ∧ tr = []) := by
  rcases l with ⟨cell⟩
  refine ⟨applyAcc_resolves cell a v2 l2 tr h, ?_⟩
  intro v hv
  simp only at hv
  subst hv
  rw [applyAcc_val] at h
  simp only [Option.some.injEq, Prod.mk.injEq] at h
  exact ⟨h.2.1.symm, h.1.symm, h.2.2.symm⟩

/-- Witness for C8: a `get` on a resolved cell holding `3`. -/
theorem C8_cell_resolved_invariant_witness :
    (Later.mk (FuturePair.Val (3 : Nat))).fut_pair = FuturePair.Val 3 ∧
    (∀ v, (Later.mk (FuturePair.Val (3 : Nat))).fut_pair
        = FuturePair.Val v →
      Later.mk (FuturePair.Val (3 : Nat)) = Later.mk (FuturePair.Val 3) ∧
      (3 : Nat) = v ∧ ([] : List Ev) = []) :=
  C8_cell_resolved_invariant (Later.mk (FuturePair.Val 3)) Later.Acc.get
    3 (Later.mk (FuturePair.Val 3)) [] rfl

/-- C9: `release` is permanent and one-shot: starting from any state,
once `release` has been called no subsequent operation of the waker
(`release` or `wait`, in any order and number) ever sets the flag back,
and every subsequent `wait` call returns immediately without suspending
— in particular, inside one `poll_to_completion`, after the first real
wake the loop's block calls return without suspending. -/
theorem C9_release_is_permanent (s : MainWakerState)
    (ops : List MainWaker.WakerOp) (e : Option WakeEvent) :
    (MainWaker.run (MainWaker.release s) ops).locker = false ∧
    MainWaker.wait (MainWaker.run (MainWaker.release s) ops) e
      = some ⟨false, Option.none⟩ := by
  have h := run_preserves_cleared ops (MainWaker.release s) rfl
  exact ⟨h, by simp [MainWaker.wait, h]⟩

/-- C10: the `None` placeholder never escapes an accessor: every cell
content reachable through the public interface (construction followed
by any sequence of accessors) is a `Fut` or a `Val`, never `None`, and
on such contents no public operation — accessor or consuming
`into_inner` — ever reaches a `"Report a bug"` panic branch. -/
theorem C10_placeholder_unreachable {O : Type} (s : FuturePair O)
    (h : ReachableCell s) :
    s ≠ FuturePair.None ∧
    (∀ a, (Later.mk s).applyAcc a ≠ Option.none) ∧
    (Later.mk s).into_inner ≠ Option.none := by
  rcases reachableCell_shape s h with ⟨v, rfl⟩ | ⟨p, rfl⟩
  · refine ⟨by simp, fun a => ?_, by simp [Later.into_inner, FuturePair.into]⟩
    rw [applyAcc_val]
    simp
  · refine ⟨by simp, fun a => ?_, by simp [Later.into_inner, FuturePair.into]⟩
    obtain ⟨tr, htr⟩ := applyAcc_fut p a
    rw [htr]
    simp

/-- Witness for C10: the resolved cell reached by constructing a
wrapper from an already-ready future yielding `5`. -/
theorem C10_placeholder_unreachable_witness :
    (FuturePair.Val (5 : Nat)) ≠ FuturePair.None ∧
    (∀ a, (Later.mk (FuturePair.Val (5 : Nat))).applyAcc a
      ≠ Option.none) ∧
    (Later.mk (FuturePair.Val (5 : Nat))).into_inner ≠ Option.none :=
  C10_placeholder_unreachable (FuturePair.Val 5)
    (ReachableCell.new ⟨0, 5⟩)
